import Mathlib

/-!
Shallow embedding of `src/header/value.rs` (the `HeaderValue` type of the
`http` crate slice): byte validity predicates, the fallible and panicking
constructors, text extraction, equality/ordering/hashing, the debug
renderer, and the integer conversions.  Bytes are modelled as `Nat`
(octets, `< 256` where it matters), buffers as `List Nat`, fallible Rust
functions as `Except`, and the panicking path of `from_static` as
`Option` (with `none` standing for the panic).
-/

namespace HV

/-- Construction validity predicate, from `fn is_valid(b: u8) -> bool`:
`b >= 32 && b != 127 || b == b'\t'`. -/
def is_valid (b : Nat) : Bool :=
  (decide (b ≥ 32) && b != 127) || b == 9

/-- Text-extraction validity predicate, from `fn is_visible_ascii(b: u8) -> bool`:
`b >= 32 && b < 127 || b == b'\t'`. -/
def is_visible_ascii (b : Nat) : Bool :=
  (decide (b ≥ 32) && decide (b < 127)) || b == 9

/-- The `HeaderValue` struct: an immutable byte buffer plus a sensitivity
flag.  Buffer sharing (the `Bytes` reference count) is not observable at
the level of the claims, so the buffer is its byte content. -/
structure HeaderValue where
  inner : List Nat
  is_sensitive : Bool
deriving DecidableEq, Repr

/-- Error type `InvalidHeaderValue` (construction failure); carries no
payload beyond its identity, like the Rust `_priv: ()` field. -/
structure InvalidHeaderValue where
  _priv : Unit
deriving DecidableEq, Repr

/-- Error type `InvalidHeaderValueBytes` (construction failure for an
owned/shared buffer); wraps `InvalidHeaderValue` as in the source. -/
structure InvalidHeaderValueBytes where
  val : InvalidHeaderValue
deriving DecidableEq, Repr

/-- Error type `ToStrError` (text extraction failure). -/
structure ToStrError where
  _priv : Unit
deriving DecidableEq, Repr

/-- The validation loop of `HeaderValue::try_from`: walk the bytes, and on
the first byte failing `is_valid` return `Err(InvalidHeaderValue)`;
otherwise build the value over the full source buffer, not sensitive. -/
def try_from_go (src : List Nat) : List Nat → Except InvalidHeaderValue HeaderValue
  | [] => Except.ok { inner := src, is_sensitive := false }
  | b :: rest =>
    if !is_valid b then Except.error { _priv := () }
    else try_from_go src rest

/-- Embeds `fn try_from<T: AsRef<[u8]> + Into<Bytes>>(src: T)`. -/
def HeaderValue.try_from (src : List Nat) : Except InvalidHeaderValue HeaderValue :=
  try_from_go src src

/-- Embeds `HeaderValue::from_bytes`, which just forwards to `try_from`. -/
def HeaderValue.from_bytes (src : List Nat) : Except InvalidHeaderValue HeaderValue :=
  HeaderValue.try_from src

/-- Embeds `HeaderValue::from_str`: forwards to `try_from` over the UTF-8
bytes of the string argument. -/
def HeaderValue.from_str (src : List Nat) : Except InvalidHeaderValue HeaderValue :=
  HeaderValue.try_from src

/-- Embeds `HeaderValue::from_shared`: `try_from(src).map_err(InvalidHeaderValueBytes)`. -/
def HeaderValue.from_shared (src : List Nat) : Except InvalidHeaderValueBytes HeaderValue :=
  match HeaderValue.try_from src with
  | Except.ok v => Except.ok v
  | Except.error e => Except.error { val := e }

/-- The validation loop of `HeaderValue::from_static`: panics (modelled as
`none`) on the first byte failing `is_visible_ascii`, else builds the
value over the source bytes, not sensitive. -/
def from_static_go (src : List Nat) : List Nat → Option HeaderValue
  | [] => some { inner := src, is_sensitive := false }
  | b :: rest =>
    if !is_visible_ascii b then none
    else from_static_go src rest

/-- Embeds `HeaderValue::from_static`. -/
def HeaderValue.from_static (src : List Nat) : Option HeaderValue :=
  from_static_go src src

/-- The scan loop of `HeaderValue::to_str`: on the first byte failing
`is_visible_ascii` return `Err(ToStrError)`, else return the buffer's own
bytes viewed as text (`str::from_utf8_unchecked` aliases the buffer). -/
def to_str_go (bytes : List Nat) : List Nat → Except ToStrError (List Nat)
  | [] => Except.ok bytes
  | b :: rest =>
    if !is_visible_ascii b then Except.error { _priv := () }
    else to_str_go bytes rest

/-- Embeds `HeaderValue::to_str`. -/
def HeaderValue.to_str (v : HeaderValue) : Except ToStrError (List Nat) :=
  to_str_go v.inner v.inner

/- ===== loop characterisation lemmas ===== -/

theorem try_from_go_ok (src : List Nat) :
    ∀ l, (∀ b ∈ l, is_valid b = true) →
      try_from_go src l = Except.ok { inner := src, is_sensitive := false } := by
  intro l
  induction l with
  | nil => intro _; rfl
  | cons b rest ih =>
    intro h
    have hb : is_valid b = true := h b (List.mem_cons_self b rest)
    simp [try_from_go, hb]
    exact ih fun x hx => h x (List.mem_cons_of_mem b hx)

theorem try_from_go_err (src : List Nat) :
    ∀ l, (∃ b ∈ l, is_valid b = false) →
      try_from_go src l = Except.error { _priv := () } := by
  intro l
  induction l with
  | nil => rintro ⟨b, hb, _⟩; cases hb
  | cons b rest ih =>
    rintro ⟨x, hx, hxv⟩
    by_cases hb : is_valid b = true
    · simp [try_from_go, hb]
      apply ih
      rcases List.mem_cons.mp hx with h | h
      · subst h; rw [hb] at hxv; cases hxv
      · exact ⟨x, h, hxv⟩
    · simp [try_from_go, Bool.eq_false_iff.mpr hb]

theorem from_static_go_some (src : List Nat) :
    ∀ l, (∀ b ∈ l, is_visible_ascii b = true) →
      from_static_go src l = some { inner := src, is_sensitive := false } := by
  intro l
  induction l with
  | nil => intro _; rfl
  | cons b rest ih =>
    intro h
    have hb := h b (List.mem_cons_self b rest)
    simp [from_static_go, hb]
    exact ih fun x hx => h x (List.mem_cons_of_mem b hx)

theorem from_static_go_none (src : List Nat) :
    ∀ l, (∃ b ∈ l, is_visible_ascii b = false) →
      from_static_go src l = none := by
  intro l
  induction l with
  | nil => rintro ⟨b, hb, _⟩; cases hb
  | cons b rest ih =>
    rintro ⟨x, hx, hxv⟩
    by_cases hb : is_visible_ascii b = true
    · simp [from_static_go, hb]
      apply ih
      rcases List.mem_cons.mp hx with h | h
      · subst h; rw [hb] at hxv; cases hxv
      · exact ⟨x, h, hxv⟩
    · simp [from_static_go, Bool.eq_false_iff.mpr hb]

theorem to_str_go_ok (bytes : List Nat) :
    ∀ l, (∀ b ∈ l, is_visible_ascii b = true) →
      to_str_go bytes l = Except.ok bytes := by
  intro l
  induction l with
  | nil => intro _; rfl
  | cons b rest ih =>
    intro h
    have hb := h b (List.mem_cons_self b rest)
    simp [to_str_go, hb]
    exact ih fun x hx => h x (List.mem_cons_of_mem b hx)

theorem to_str_go_err (bytes : List Nat) :
    ∀ l, (∃ b ∈ l, is_visible_ascii b = false) →
      to_str_go bytes l = Except.error { _priv := () } := by
  intro l
  induction l with
  | nil => rintro ⟨b, hb, _⟩; cases hb
  | cons b rest ih =>
    rintro ⟨x, hx, hxv⟩
    by_cases hb : is_visible_ascii b = true
    · simp [to_str_go, hb]
      apply ih
      rcases List.mem_cons.mp hx with h | h
      · subst h; rw [hb] at hxv; cases hxv
      · exact ⟨x, h, hxv⟩
    · simp [to_str_go, Bool.eq_false_iff.mpr hb]

theorem try_from_go_ok_inv (src : List Nat) :
    ∀ l v, try_from_go src l = Except.ok v →
      (∀ b ∈ l, is_valid b = true) ∧ v = { inner := src, is_sensitive := false } := by
  intro l
  induction l with
  | nil =>
    intro v h
    refine ⟨by simp, ?_⟩
    simpa [try_from_go] using h.symm
  | cons b rest ih =>
    intro v h
    by_cases hb : is_valid b = true
    · simp [try_from_go, hb] at h
      rcases ih v h with ⟨h1, h2⟩
      exact ⟨by simpa [hb] using h1, h2⟩
    · simp [try_from_go, Bool.eq_false_iff.mpr hb] at h

theorem from_static_go_some_inv (src : List Nat) :
    ∀ l v, from_static_go src l = some v →
      (∀ b ∈ l, is_visible_ascii b = true) ∧ v = { inner := src, is_sensitive := false } := by
  intro l
  induction l with
  | nil =>
    intro v h
    refine ⟨by simp, ?_⟩
    simpa [from_static_go] using h.symm
  | cons b rest ih =>
    intro v h
    by_cases hb : is_visible_ascii b = true
    · simp [from_static_go, hb] at h
      rcases ih v h with ⟨h1, h2⟩
      exact ⟨by simpa [hb] using h1, h2⟩
    · simp [from_static_go, Bool.eq_false_iff.mpr hb] at h

theorem to_str_go_ok_inv (bytes : List Nat) :
    ∀ l s, to_str_go bytes l = Except.ok s →
      (∀ b ∈ l, is_visible_ascii b = true) ∧ s = bytes := by
  intro l
  induction l with
  | nil =>
    intro s h
    refine ⟨by simp, ?_⟩
    simpa [to_str_go] using h.symm
  | cons b rest ih =>
    intro s h
    by_cases hb : is_visible_ascii b = true
    · simp [to_str_go, hb] at h
      rcases ih s h with ⟨h1, h2⟩
      exact ⟨by simpa [hb] using h1, h2⟩
    · simp [to_str_go, Bool.eq_false_iff.mpr hb] at h

/- ===== comparator and hash, from the PartialEq/Ord/derive(Hash) impls ===== -/

/-- Byte-for-byte equality of the buffers, from
`impl PartialEq for HeaderValue { self.inner == other.inner }` (the
`Bytes` equality is slice content equality). -/
def hvEq (a b : HeaderValue) : Bool :=
  a.inner == b.inner

/-- Lexicographic slice comparison as Rust's `Ord for [u8]` computes it:
compare elementwise on the common prefix, then by length. -/
def sliceCmp : List Nat → List Nat → Ordering
  | [], [] => Ordering.eq
  | [], _ :: _ => Ordering.lt
  | _ :: _, [] => Ordering.gt
  | x :: xs, y :: ys =>
    match compare x y with
    | Ordering.eq => sliceCmp xs ys
    | o => o

/-- Total order on containers, from
`impl Ord for HeaderValue { self.inner.cmp(&other.inner) }`. -/
def hvCmp (a b : HeaderValue) : Ordering :=
  sliceCmp a.inner b.inner

/-- The byte/word stream `#[derive(Hash)]` feeds to the hasher for a
`HeaderValue`: the `Bytes` field hashes as a slice (length, then content),
then the `bool` field hashes as one byte (0 or 1). -/
def hashFeed (v : HeaderValue) : List Nat :=
  v.inner.length :: v.inner ++ [if v.is_sensitive then 1 else 0]

theorem sliceCmp_eq_iff : ∀ xs ys : List Nat, sliceCmp xs ys = Ordering.eq ↔ xs = ys := by
  intro xs
  induction xs with
  | nil =>
    intro ys
    cases ys with
    | nil => simp [sliceCmp]
    | cons y ys => simp [sliceCmp]
  | cons x xs ih =>
    intro ys
    cases ys with
    | nil => simp [sliceCmp]
    | cons y ys =>
      rcases Nat.lt_trichotomy x y with hlt | heq | hgt
      · have h1 : compare x y = Ordering.lt := Nat.compare_eq_lt.mpr hlt
        simp [sliceCmp, h1, Nat.ne_of_lt hlt]
      · subst heq
        have h1 : compare x x = Ordering.eq := Nat.compare_eq_eq.mpr rfl
        simp [sliceCmp, h1, ih ys]
      · have h1 : compare x y = Ordering.gt := Nat.compare_eq_gt.mpr hgt
        simp [sliceCmp, h1, Ne.symm (Nat.ne_of_lt hgt)]

theorem sliceCmp_lt_iff :
    ∀ xs ys : List Nat, sliceCmp xs ys = Ordering.lt ↔ List.Lex (fun a b : Nat => a < b) xs ys := by
  intro xs
  induction xs with
  | nil =>
    intro ys
    cases ys with
    | nil =>
      simp only [sliceCmp]
      constructor
      · intro h; cases h
      · intro h; cases h
    | cons y ys =>
      simp only [sliceCmp]
      constructor
      · intro _; exact List.Lex.nil
      · intro _; trivial
  | cons x xs ih =>
    intro ys
    cases ys with
    | nil =>
      simp only [sliceCmp]
      constructor
      · intro h; cases h
      · intro h; cases h
    | cons y ys =>
      rcases Nat.lt_trichotomy x y with hlt | heq | hgt
      · have h1 : compare x y = Ordering.lt := Nat.compare_eq_lt.mpr hlt
        simp only [sliceCmp, h1]
        constructor
        · intro _; exact List.Lex.rel hlt
        · intro _; trivial
      · subst heq
        have h1 : compare x x = Ordering.eq := Nat.compare_eq_eq.mpr rfl
        simp only [sliceCmp, h1]
        rw [ih ys]
        constructor
        · intro h; exact List.Lex.cons h
        · intro h
          cases h with
          | cons h => exact h
          | rel h => exact absurd h (lt_irrefl x)
      · have h1 : compare x y = Ordering.gt := Nat.compare_eq_gt.mpr hgt
        simp only [sliceCmp, h1]
        constructor
        · intro h; cases h
        · intro h
          cases h with
          | cons h2 => exact absurd hgt (lt_irrefl x)
          | rel h2 => exact absurd (h2.trans hgt) (lt_irrefl x)

theorem sliceCmp_swap : ∀ xs ys : List Nat, (sliceCmp xs ys).swap = sliceCmp ys xs := by
  intro xs
  induction xs with
  | nil =>
    intro ys
    cases ys with
    | nil => rfl
    | cons y ys => rfl
  | cons x xs ih =>
    intro ys
    cases ys with
    | nil => rfl
    | cons y ys =>
      rcases Nat.lt_trichotomy x y with hlt | heq | hgt
      · have h1 : compare x y = Ordering.lt := Nat.compare_eq_lt.mpr hlt
        have h2 : compare y x = Ordering.gt := Nat.compare_eq_gt.mpr hlt
        simp [sliceCmp, h1, h2, Ordering.swap]
      · subst heq
        have h1 : compare x x = Ordering.eq := Nat.compare_eq_eq.mpr rfl
        simp [sliceCmp, h1, ih ys]
      · have h1 : compare x y = Ordering.gt := Nat.compare_eq_gt.mpr hgt
        have h2 : compare y x = Ordering.lt := Nat.compare_eq_lt.mpr hgt
        simp [sliceCmp, h1, h2, Ordering.swap]

theorem sliceCmp_gt_iff :
    ∀ xs ys : List Nat, sliceCmp xs ys = Ordering.gt ↔ List.Lex (fun a b : Nat => a < b) ys xs := by
  intro xs ys
  rw [← sliceCmp_lt_iff ys xs, ← sliceCmp_swap ys xs]
  cases sliceCmp ys xs with
  | lt => simp [Ordering.swap]
  | eq => simp [Ordering.swap]
  | gt => simp [Ordering.swap]

/- ===== debug renderer, from `impl fmt::Debug for HeaderValue` ===== -/

/-- Ascii code of a lowercase hex digit, as the `x` format renders a nibble. -/
def hexDigitAscii (n : Nat) : Nat :=
  if n < 10 then 48 + n else 87 + n

/-- Ascii rendering of a byte by the `\x{:x}` write: the `x` format pads
nothing, so one digit below 16 and two digits otherwise (a u8 never needs
three). -/
def hexBytes (b : Nat) : List Nat :=
  if b < 16 then [hexDigitAscii b]
  else [hexDigitAscii (b / 16), hexDigitAscii (b % 16)]

/-- What one loop iteration of the Debug body contributes for byte `b`:
the escape when `!is_visible_ascii(b) || b == '"'`, else the byte itself
(it stays in the pending run and is written verbatim). -/
def escByteSrc (b : Nat) : List Nat :=
  if !is_visible_ascii b || b == 34 then
    if b == 34 then [92, 34] else [92, 120] ++ hexBytes b
  else [b]

/-- The escaping loop of the Debug body: `run` models the pending slice
`bytes[from..i]` that is flushed before each escape and once at the end. -/
def debugRun (run : List Nat) : List Nat → List Nat
  | [] => run
  | b :: rest =>
    if !is_visible_ascii b || b == 34 then
      run ++ (if b == 34 then [92, 34] else [92, 120] ++ hexBytes b) ++ debugRun [] rest
    else
      debugRun (run ++ [b]) rest

/-- Ascii codes of the literal token `Sensitive`. -/
def sensitiveAscii : List Nat :=
  [83, 101, 110, 115, 105, 116, 105, 118, 101]

/-- Embeds `impl fmt::Debug for HeaderValue`: the bare token for sensitive
values, else the quoted escaped form. -/
def debugFmt (v : HeaderValue) : List Nat :=
  if v.is_sensitive then sensitiveAscii
  else [34] ++ debugRun [] v.inner ++ [34]

/-- Per-byte escaping as the spec words it: visible non-quote bytes
verbatim, the quote as backslash-quote, anything else as a backslash-x
escape of exactly two lowercase hex digits. -/
def debugEscSpec (b : Nat) : List Nat :=
  if is_visible_ascii b && b != 34 then [b]
  else if b == 34 then [92, 34]
  else [92, 120, hexDigitAscii (b / 16), hexDigitAscii (b % 16)]

theorem debugRun_eq_flatMap : ∀ (l run : List Nat), debugRun run l = run ++ l.flatMap escByteSrc := by
  intro l
  induction l with
  | nil => intro run; simp [debugRun]
  | cons b rest ih =>
    intro run
    by_cases hb : (!is_visible_ascii b || b == 34) = true
    · rw [debugRun, if_pos hb, ih []]
      simp [escByteSrc, hb]
    · rw [debugRun, if_neg hb, ih (run ++ [b])]
      simp [escByteSrc, hb]

theorem flatMap_congr_mem {l : List Nat} {f g : Nat → List Nat} (h : ∀ b ∈ l, f b = g b) :
    l.flatMap f = l.flatMap g := by
  induction l with
  | nil => rfl
  | cons b rest ih =>
    simp only [List.flatMap_cons]
    rw [h b (List.mem_cons_self b rest), ih fun x hx => h x (List.mem_cons_of_mem b hx)]

set_option maxRecDepth 8192 in
theorem escByteSrc_eq_spec : ∀ b : Nat, b < 256 → is_valid b = true → escByteSrc b = debugEscSpec b := by
  decide

/- ===== numeric encoder, from the `from_integers!` macro ===== -/

/-- Fuel-indexed decimal writer; models the external `itoa` crate's
`fmt`, which emits the base-10 digits of the magnitude by repeated
division, most significant first. -/
def itoaFuel : Nat → Nat → List Nat
  | 0, _ => []
  | fuel + 1, n =>
    if n < 10 then [48 + n]
    else itoaFuel fuel (n / 10) ++ [48 + n % 10]

/-- Decimal ascii digits of a nonnegative value, as `itoa` writes them. -/
def itoaNat (n : Nat) : List Nat :=
  itoaFuel (n + 1) n

/-- Decimal ascii of a signed value, as `itoa::fmt` writes it: a minus
sign (ascii 45) for negatives, then the digits of the magnitude. -/
def itoaInt (n : Int) : List Nat :=
  if n < 0 then 45 :: itoaNat n.natAbs else itoaNat n.toNat

/-- Observable outcome of one `From<$t> for HeaderValue` conversion: the
constructed value plus whether the buffer choice was the heap-allocating
`BytesMut::with_capacity` (rather than the inline `BytesMut::new`). -/
structure FromIntTrace where
  value : HeaderValue
  heapAlloc : Bool
deriving DecidableEq, Repr

/-- Embeds the body of the `from_integers!` macro expansion.
`szBytesMut` is `mem::size_of::<BytesMut>()` (16 on 32-bit targets, 32 on
64-bit targets), so `szBytesMut - 1` is the inline capacity; `maxLen` is
the per-type `$max_len` constant; `num as u64` is the two's-complement
cast, i.e. `num mod 2^64`.  The buffer is heap-allocated exactly when
`size_of::<BytesMut>() - 1 < $max_len` and
`num as u64 > 999_999_999_999_999_999`, as in the source. -/
def fromIntGeneric (szBytesMut maxLen : Nat) (num : Int) : FromIntTrace :=
  let numAsU64 : Nat := (num % (2 ^ 64)).toNat
  let alloc : Bool :=
    if szBytesMut - 1 < maxLen then decide (numAsU64 > 999999999999999999)
    else false
  { value := { inner := itoaInt num, is_sensitive := false }, heapAlloc := alloc }

/-- Decimal digit list of a natural number per the spec's wording
(base-10 expansion, most significant digit first, a single zero for 0). -/
def decimalDigitsSpec (n : Nat) : List Nat :=
  if n = 0 then [0] else (Nat.digits 10 n).reverse

/-- Decimal textual representation of an integer per the spec: a leading
minus sign for negative values, then the base-10 digits as ascii. -/
def decimalAsciiSpec (num : Int) : List Nat :=
  if num < 0 then 45 :: (decimalDigitsSpec num.natAbs).map (fun d => 48 + d)
  else (decimalDigitsSpec num.toNat).map (fun d => 48 + d)

theorem decimalDigitsSpec_step (n : Nat) (h : 10 ≤ n) :
    decimalDigitsSpec n = decimalDigitsSpec (n / 10) ++ [n % 10] := by
  have hn : n ≠ 0 := by omega
  have hq : n / 10 ≠ 0 := by
    intro hq0
    have := Nat.div_add_mod n 10
    omega
  rw [decimalDigitsSpec, if_neg hn, decimalDigitsSpec, if_neg hq]
  rw [Nat.digits_def' (by norm_num : (1:Nat) < 10) (Nat.pos_of_ne_zero hn)]
  simp

theorem itoaFuel_eq_spec :
    ∀ fuel n : Nat, n < fuel → itoaFuel fuel n = (decimalDigitsSpec n).map (fun d => 48 + d) := by
  intro fuel
  induction fuel with
  | zero => intro n h; omega
  | succ fuel ih =>
    intro n h
    by_cases hn : n < 10
    · rw [itoaFuel, if_pos hn]
      by_cases h0 : n = 0
      · subst h0; simp [decimalDigitsSpec]
      · rw [decimalDigitsSpec, if_neg h0]
        rw [Nat.digits_def' (by norm_num : (1:Nat) < 10) (Nat.pos_of_ne_zero h0)]
        have : n / 10 = 0 := Nat.div_eq_of_lt hn
        rw [this]
        simp [Nat.mod_eq_of_lt hn]
    · rw [itoaFuel, if_neg hn]
      have hstep : n / 10 < fuel := by
        have h1 : n / 10 < n := Nat.div_lt_self (by omega) (by norm_num)
        omega
      rw [ih (n / 10) hstep]
      rw [decimalDigitsSpec_step n (by omega)]
      simp

theorem itoaNat_eq_spec (n : Nat) :
    itoaNat n = (decimalDigitsSpec n).map (fun d => 48 + d) :=
  itoaFuel_eq_spec (n + 1) n (Nat.lt_succ_self n)

theorem itoaInt_eq_spec (num : Int) : itoaInt num = decimalAsciiSpec num := by
  by_cases h : num < 0
  · rw [itoaInt, if_pos h, decimalAsciiSpec, if_pos h, itoaNat_eq_spec]
  · rw [itoaInt, if_neg h, decimalAsciiSpec, if_neg h, itoaNat_eq_spec]

/- ===== claim theorems ===== -/

/-- Claim C1: for every byte sequence, from_str / from_bytes / from_shared
succeed exactly when every byte satisfies is_valid; on success the
container's byte view is the input and the flag is false; on failure
from_str/from_bytes yield InvalidHeaderValue and from_shared yields
InvalidHeaderValueBytes. -/
theorem construct_iff_valid (b : List Nat) :
    (HeaderValue.from_str b = HeaderValue.from_bytes b) ∧
    ((∃ v, HeaderValue.from_bytes b = Except.ok v) ↔ ∀ x ∈ b, is_valid x = true) ∧
    ((∃ v, HeaderValue.from_shared b = Except.ok v) ↔ ∀ x ∈ b, is_valid x = true) ∧
    (∀ v, HeaderValue.from_bytes b = Except.ok v → v.inner = b ∧ v.is_sensitive = false) ∧
    (∀ v, HeaderValue.from_shared b = Except.ok v → v.inner = b ∧ v.is_sensitive = false) ∧
    ((∃ x ∈ b, is_valid x = false) →
      HeaderValue.from_bytes b = Except.error { _priv := () } ∧
      HeaderValue.from_shared b = Except.error { val := { _priv := () } }) := by
  refine ⟨rfl, ?_, ?_, ?_, ?_, ?_⟩
  · constructor
    · rintro ⟨v, hv⟩
      exact (try_from_go_ok_inv b b v hv).1
    · intro h
      exact ⟨_, try_from_go_ok b b h⟩
  · constructor
    · rintro ⟨v, hv⟩
      simp only [HeaderValue.from_shared, HeaderValue.try_from] at hv
      cases htf : try_from_go b b with
      | ok w => exact (try_from_go_ok_inv b b w htf).1
      | error e => rw [htf] at hv; simp at hv
    · intro h
      refine ⟨{ inner := b, is_sensitive := false }, ?_⟩
      simp only [HeaderValue.from_shared, HeaderValue.try_from]
      rw [try_from_go_ok b b h]
  · intro v hv
    have h2 := (try_from_go_ok_inv b b v hv).2
    rw [h2]
    exact ⟨rfl, rfl⟩
  · intro v hv
    simp only [HeaderValue.from_shared, HeaderValue.try_from] at hv
    cases htf : try_from_go b b with
    | ok w =>
      rw [htf] at hv
      simp at hv
      have h2 := (try_from_go_ok_inv b b w htf).2
      rw [← hv, h2]
      exact ⟨rfl, rfl⟩
    | error e => rw [htf] at hv; simp at hv
  · intro hex
    have he := try_from_go_err b b hex
    refine ⟨he, ?_⟩
    simp only [HeaderValue.from_shared, HeaderValue.try_from]
    rw [he]

/-- Claim C1 witness: a concrete invalid input (a newline byte) is
rejected with each failure kind, via the theorem. -/
theorem construct_iff_valid_witness :
    HeaderValue.from_bytes [10] = Except.error { _priv := () } ∧
    HeaderValue.from_shared [10] = Except.error { val := { _priv := () } } :=
  (construct_iff_valid [10]).2.2.2.2.2 ⟨10, by decide, by decide⟩

/-- Claim C2: to_str succeeds exactly when every byte of the container is
visible ascii (or tab); on success it returns the container's own bytes,
and otherwise it fails with ToStrError. -/
theorem to_str_spec (v : HeaderValue) :
    ((∃ s, HeaderValue.to_str v = Except.ok s) ↔ ∀ b ∈ v.inner, is_visible_ascii b = true) ∧
    (∀ s, HeaderValue.to_str v = Except.ok s → s = v.inner) ∧
    ((∃ b ∈ v.inner, is_visible_ascii b = false) →
      HeaderValue.to_str v = Except.error { _priv := () }) := by
  refine ⟨?_, ?_, ?_⟩
  · constructor
    · rintro ⟨s, hs⟩
      exact (to_str_go_ok_inv v.inner v.inner s hs).1
    · intro h
      exact ⟨v.inner, to_str_go_ok v.inner v.inner h⟩
  · intro s hs
    exact (to_str_go_ok_inv v.inner v.inner s hs).2
  · intro hex
    exact to_str_go_err v.inner v.inner hex

/-- Claim C2 witness: a container holding an opaque octet fails text
extraction, via the theorem. -/
theorem to_str_spec_witness :
    HeaderValue.to_str { inner := [104, 200], is_sensitive := false } =
      Except.error { _priv := () } :=
  (to_str_spec { inner := [104, 200], is_sensitive := false }).2.2 ⟨200, by decide, by decide⟩

/-- Claim C3 counterexample: byte 200 satisfies is_valid, yet from_static
panics on it (modelled as none), refuting the claim that from_static
aborts only when some byte violates is_valid. -/
theorem from_static_claim_false :
    is_valid 200 = true ∧ HeaderValue.from_static [200] = none := by
  decide

/-- Claim C3 amended: from_static panics exactly when some byte of the
input violates is_visible_ascii (32 <= b < 127, or b = 9); when every byte
is visible ascii it returns a non-sensitive container holding exactly the
input bytes. -/
theorem from_static_spec (src : List Nat) :
    (HeaderValue.from_static src = none ↔ ∃ b ∈ src, is_visible_ascii b = false) ∧
    ((∀ b ∈ src, is_visible_ascii b = true) →
      HeaderValue.from_static src = some { inner := src, is_sensitive := false }) := by
  constructor
  · constructor
    · intro hnone
      by_contra hne
      push_neg at hne
      have hall : ∀ b ∈ src, is_visible_ascii b = true := by
        intro x hx
        cases hv : is_visible_ascii x with
        | false => exact absurd hv (hne x hx)
        | true => rfl
      have := from_static_go_some src src hall
      rw [HeaderValue.from_static] at hnone
      rw [this] at hnone
      cases hnone
    · intro hex
      exact from_static_go_none src src hex
  · intro h
    exact from_static_go_some src src h

/-- Claim C3 witness: a fully visible-ascii input constructs without
panic, via the amended theorem. -/
theorem from_static_spec_witness :
    HeaderValue.from_static [104, 105] = some { inner := [104, 105], is_sensitive := false } :=
  (from_static_spec [104, 105]).2 (by decide)

/-- Claim C4 evaluation: two containers with identical bytes and
different sensitivity flags compare equal under the PartialEq impl, yet
the derived Hash feeds the hasher different streams because it hashes the
is_sensitive field after the buffer. -/
theorem hash_includes_sensitive :
    hvEq { inner := [97], is_sensitive := false } { inner := [97], is_sensitive := true } = true ∧
    hashFeed { inner := [97], is_sensitive := false } ≠
      hashFeed { inner := [97], is_sensitive := true } := by
  decide

/-- Claim C5: container equality and ordering are exactly byte-for-byte
equality and lexicographic byte order of the buffers, for any values of
the two sensitivity flags; in particular same bytes with different flags
compare equal and order as equivalent. -/
theorem compare_ignores_sensitive (b1 b2 : List Nat) (s1 s2 : Bool) :
    (hvEq { inner := b1, is_sensitive := s1 } { inner := b2, is_sensitive := s2 } = true ↔
      b1 = b2) ∧
    (hvCmp { inner := b1, is_sensitive := s1 } { inner := b2, is_sensitive := s2 } = Ordering.eq ↔
      b1 = b2) ∧
    (hvCmp { inner := b1, is_sensitive := s1 } { inner := b2, is_sensitive := s2 } = Ordering.lt ↔
      List.Lex (fun a b : Nat => a < b) b1 b2) ∧
    (hvCmp { inner := b1, is_sensitive := s1 } { inner := b2, is_sensitive := s2 } = Ordering.gt ↔
      List.Lex (fun a b : Nat => a < b) b2 b1) := by
  refine ⟨?_, sliceCmp_eq_iff b1 b2, sliceCmp_lt_iff b1 b2, sliceCmp_gt_iff b1 b2⟩
  simp [hvEq]

/-- Claim C6: for a non-sensitive container (whose bytes are octets
satisfying the construction invariant), the debug rendering is the quoted
form obtained by escaping per byte, in byte order: visible non-quote
bytes verbatim, the quote as an escaped quote, and every other byte as a
backslash-x escape of exactly two lowercase hex digits. -/
theorem debug_not_sensitive (bytes : List Nat)
    (h1 : ∀ b ∈ bytes, b < 256) (h2 : ∀ b ∈ bytes, is_valid b = true) :
    debugFmt { inner := bytes, is_sensitive := false } =
      [34] ++ bytes.flatMap debugEscSpec ++ [34] := by
  have h3 : debugFmt { inner := bytes, is_sensitive := false } =
      [34] ++ debugRun [] bytes ++ [34] := rfl
  rw [h3, debugRun_eq_flatMap bytes []]
  rw [flatMap_congr_mem (fun b hb => escByteSrc_eq_spec b (h1 b hb) (h2 b hb))]
  simp

/-- Claim C6 witness: the 3-byte UTF-8 encoding of U+7FFF followed by the
ascii of hello renders as the quoted form with each opaque byte escaped
individually, via the theorem. -/
theorem debug_not_sensitive_witness :
    debugFmt { inner := [231, 191, 191, 104, 101, 108, 108, 111], is_sensitive := false } =
      [34, 92, 120, 101, 55, 92, 120, 98, 102, 92, 120, 98, 102,
        104, 101, 108, 108, 111, 34] :=
  (debug_not_sensitive [231, 191, 191, 104, 101, 108, 108, 111]
    (by decide) (by decide)).trans (by decide)

/-- Claim C7: a sensitive container always debug-renders as exactly the
unquoted literal token Sensitive, independent of its byte content. -/
theorem debug_sensitive_const (v : HeaderValue) (h : v.is_sensitive = true) :
    debugFmt v = [83, 101, 110, 115, 105, 116, 105, 118, 101] := by
  simp [debugFmt, h, sensitiveAscii]

/-- Claim C7 witness: a sensitive container holding bytes that could not
even be constructed by the validating paths still renders as the bare
token, via the theorem. -/
theorem debug_sensitive_const_witness :
    debugFmt { inner := [0, 255], is_sensitive := true } =
      [83, 101, 110, 115, 105, 116, 105, 118, 101] :=
  debug_sensitive_const { inner := [0, 255], is_sensitive := true } rfl

/-- Claim C8: integer conversion, for every BytesMut size and per-type
maximum-length constant (hence every supported width on every target),
always yields a container whose bytes are exactly the decimal textual
representation of the value (with a leading minus for negatives) and
whose sensitivity flag is false. -/
theorem from_int_decimal (szBytesMut maxLen : Nat) (num : Int) :
    (fromIntGeneric szBytesMut maxLen num).value.inner = decimalAsciiSpec num ∧
    (fromIntGeneric szBytesMut maxLen num).value.is_sensitive = false :=
  ⟨itoaInt_eq_spec num, rfl⟩

/-- Claim C9 evaluation: on a 32-bit target (BytesMut size 16, so inline
capacity 15) with the 64-bit maximum length 20, the conversion
pre-allocates for -5 although its decimal form needs only 2 bytes, and
takes the inline branch for 10^15 although its decimal form needs 16
bytes: the comparison constant in the source is 10^18 - 1, not the
largest value representable in the 15-byte inline capacity. -/
theorem from_int_alloc_bug :
    (fromIntGeneric 16 20 (-5)).heapAlloc = true ∧
    (itoaInt (-5)).length = 2 ∧
    (fromIntGeneric 16 20 1000000000000000).heapAlloc = false ∧
    (itoaInt 1000000000000000).length = 16 := by
  refine ⟨by decide, by decide, by decide, ?_⟩
  have ht : (1000000000000000 : Int).toNat = 10 ^ 15 := by decide
  rw [itoaInt, if_neg (by norm_num), ht, itoaNat_eq_spec]
  rw [decimalDigitsSpec, if_neg (by norm_num)]
  rw [List.length_map, List.length_reverse]
  have hlen := Nat.digits_len 10 (10 ^ 15) (by norm_num : (1:Nat) < 10) (by norm_num)
  have hlog : Nat.log 10 (10 ^ 15) = 15 := Nat.log_pow (by norm_num : (1:Nat) < 10) 15
  omega

/-- Claim C10: whenever to_str succeeds with text s, from_str on s
succeeds and yields a container with the same byte view; indeed every
byte accepted by is_visible_ascii is accepted by is_valid. -/
theorem to_str_roundtrip (v : HeaderValue) (s : List Nat)
    (h : HeaderValue.to_str v = Except.ok s) :
    HeaderValue.from_str s = Except.ok { inner := v.inner, is_sensitive := false } ∧
    s = v.inner ∧
    ∀ b : Nat, is_visible_ascii b = true → is_valid b = true := by
  have hvis : ∀ b ∈ v.inner, is_visible_ascii b = true := (to_str_go_ok_inv v.inner v.inner s h).1
  have hs : s = v.inner := (to_str_go_ok_inv v.inner v.inner s h).2
  have himp : ∀ b : Nat, is_visible_ascii b = true → is_valid b = true := by
    intro b hb
    simp [is_visible_ascii] at hb
    simp [is_valid]
    omega
  refine ⟨?_, hs, himp⟩
  subst hs
  exact try_from_go_ok v.inner v.inner (fun b hb => himp b (hvis b hb))

/-- Claim C10 witness: extracting text from a container holding ascii h
and a tab and reconstructing recovers the same byte view, via the
theorem. -/
theorem to_str_roundtrip_witness :
    HeaderValue.from_str [104, 9] =
      Except.ok { inner := [104, 9], is_sensitive := false } :=
  (to_str_roundtrip { inner := [104, 9], is_sensitive := true } [104, 9] rfl).1

end HV
